import Mathlib

/-!
# Verification of the length-prefixed TCP framing program (`src/main.go`)

Shallow embedding of the Go program's framing logic:

* the sender `send` writes an 8-byte little-endian `int64` length prefix via
  `binary.Write`, then the payload via `io.CopyN`;
* the receiver `FileServer.read` decodes the prefix via
  `binary.Read(conn, binary.LittleEndian, &size)` with `size int64`
  (the returned error is *ignored* by the Go code), then loops on
  `io.CopyN(buf, conn, size)`, breaking on `io.EOF` and calling
  `log.Fatal` (process abort) on any other error;
* the accept loop `FileServer.start` returns the `net.Listen` error to its
  caller, and on an `Accept` error logs and `continue`s.

A connection is modelled as the finite list of bytes it will still deliver,
followed by a terminal condition (peer closed the stream, or a stream error).
Bytes are `Nat` (values < 256 where relevant).  Machine integers are `Int`
with explicit reduction modulo 2^64; the Go `int64` prefix is *signed*, so
decoding maps an unsigned value `u ≥ 2^63` to `u - 2^64`.

The receiver's loop need not terminate (for `size = 0`, `io.CopyN` returns
`(0, nil)` without touching the connection, so the loop spins forever); it is
therefore embedded with explicit fuel, one unit per loop iteration, and
running out of fuel is a distinguished outcome.
-/

/-- What the stream does once its queued bytes are exhausted: the peer closed
the connection (subsequent reads yield `io.EOF`), or a stream error `e`
(subsequent reads yield a non-EOF error). -/
inductive ConnTerm where
  | closed : ConnTerm
  | errAfter : String → ConnTerm
deriving DecidableEq, Repr

/-- One side of a TCP connection as the receiver sees it: the bytes still to
be delivered, in order, and what happens after them. -/
structure Conn where
  data : List Nat
  term : ConnTerm
deriving DecidableEq, Repr

/-- Result of a bounded read other than success: `io.EOF`, or a non-EOF
I/O error carrying a message. -/
inductive CopyErr where
  | eof : CopyErr
  | ioErr : String → CopyErr
deriving DecidableEq, Repr

/-- Little-endian byte string of length `k` for the value `u` (mod `256^k`):
the embedding of how `encoding/binary` lays out an unsigned word. -/
def leBytes : Nat → Nat → List Nat
  | _, 0 => []
  | u, k + 1 => u % 256 :: leBytes (u / 256) k

/-- The unsigned value of a little-endian byte string. -/
def leVal (bs : List Nat) : Nat :=
  bs.foldr (fun b acc => b + 256 * acc) 0

/-- Interpret 8 little-endian bytes as a Go `int64` (two's complement):
unsigned values below `2^63` are themselves, larger ones wrap to negatives.
This is what `binary.Read(conn, binary.LittleEndian, &size)` with
`var size int64` produces. -/
def int64OfLE (bs : List Nat) : Int :=
  let u := leVal bs
  if u < 2 ^ 63 then (u : Int) else (u : Int) - 2 ^ 64

/-- The 8 little-endian bytes `binary.Write(conn, binary.LittleEndian, v)`
emits for a Go `int64` value `v` (two's complement, i.e. `v mod 2^64`). -/
def int64ToLE (v : Int) : List Nat :=
  leBytes (v % (2 : Int) ^ 64).toNat 8

/-- `io.CopyN(buf, conn, n)` on the receiving side: copies up to `n` bytes
from the connection into the buffer.  Returns the bytes copied, the error
(`none` on full success), and the remaining connection.  Faithful to Go's
`io.CopyN`:
* `n ≤ 0`: `io.Copy` on `io.LimitReader(conn, n)` reads nothing and returns
  `(0, nil)`; the connection is not touched;
* enough bytes queued: exactly `n` bytes are copied, `(n, nil)`;
* otherwise all queued bytes are copied and the next read hits the terminal
  condition: `io.EOF` (which `io.Copy` swallows, and `io.CopyN` reinstates
  because `written < n`) or the stream error. -/
def copyN (conn : Conn) (n : Int) : List Nat × Option CopyErr × Conn :=
  if n ≤ 0 then
    ([], none, conn)
  else if (conn.data.length : Int) ≥ n then
    (conn.data.take n.toNat, none, { conn with data := conn.data.drop n.toNat })
  else
    match conn.term with
    | ConnTerm.closed => (conn.data, some CopyErr.eof, { conn with data := [] })
    | ConnTerm.errAfter e => (conn.data, some (CopyErr.ioErr e), { conn with data := [] })

/-- `binary.Read(conn, binary.LittleEndian, &size)` as the Go code uses it:
reads 8 bytes and decodes them as a signed little-endian `int64`.  The Go
code *ignores* the returned error, so when fewer than 8 bytes arrive before
the stream ends, `size` keeps its zero value and execution continues (the
partial bytes were consumed by `io.ReadFull` inside `binary.Read`). -/
def readSize (conn : Conn) : Int × Conn :=
  if 8 ≤ conn.data.length then
    (int64OfLE (conn.data.take 8), { conn with data := conn.data.drop 8 })
  else
    (0, { conn with data := [] })

/-- How the receiver's loop ends: `cleanExit` is the `break` on `io.EOF`;
`fatal e` is `log.Fatal(err)`, which aborts the entire process; `outOfFuel`
means the loop was still running after the given number of iterations. -/
inductive ReadOutcome where
  | cleanExit : ReadOutcome
  | fatal : String → ReadOutcome
  | outOfFuel : ReadOutcome
deriving DecidableEq, Repr

/-- The receiver's `for {}` loop (lines 65–83 of `main.go`), one fuel unit
per iteration.  State: the accumulation buffer `buf` (a `bytes.Buffer`, which
`io.CopyN` appends to), the list `rep` of byte counts printed so far by
`fmt.Printf("Received %d bytes\n", reqLen)`, and the connection.  Each
iteration runs `reqLen, err := io.CopyN(buf, conn, size)`; on `io.EOF` it
breaks, on any other error it calls `log.Fatal`, and only otherwise does it
print the buffer and `reqLen` and iterate. -/
def readLoop (size : Int) : Nat → List Nat → List Nat → Conn →
    ReadOutcome × List Nat × List Nat × Conn
  | 0, buf, rep, conn => (ReadOutcome.outOfFuel, buf, rep, conn)
  | fuel + 1, buf, rep, conn =>
    match copyN conn size with
    | (chunk, some CopyErr.eof, conn') =>
        (ReadOutcome.cleanExit, buf ++ chunk, rep, conn')
    | (chunk, some (CopyErr.ioErr e), conn') =>
        (ReadOutcome.fatal e, buf ++ chunk, rep, conn')
    | (chunk, none, conn') =>
        readLoop size fuel (buf ++ chunk) (rep ++ [chunk.length]) conn'

/-- Options of the file server, as in the Go source (network and address are
hardcoded to `"tcp"` and `":3000"` in `main`). -/
structure FileServerOptions where
  Network : String
  Address : String
deriving DecidableEq, Repr

/-- The file server, as in the Go source. -/
structure FileServer where
  Opts : FileServerOptions
deriving DecidableEq, Repr

/-- `FileServer.read` (lines 51–84): makes an empty buffer, decodes the size
prefix once, then runs the bounded-copy loop.  Returns the loop outcome, the
final buffer contents, the list of reported per-iteration byte counts, and
the remaining connection. -/
def FileServer.read (conn : Conn) (fuel : Nat) :
    ReadOutcome × List Nat × List Nat × Conn :=
  let (size, conn') := readSize conn
  readLoop size fuel [] [] conn'

/-- `io.CopyN(conn, bytes.NewReader(file), n)` on the sending side: a
`bytes.Reader` yields `io.EOF` once the slice is exhausted, so if fewer than
`n` bytes are available `io.CopyN` returns the short count with `io.EOF`. -/
def copyNFromReader (src : List Nat) (n : Int) : List Nat × Option CopyErr :=
  if n ≤ 0 then ([], none)
  else if (src.length : Int) ≥ n then (src.take n.toNat, none)
  else (src, some CopyErr.eof)

/-- `send(size)` (lines 86–132), with the payload bytes made explicit (the Go
code fills `file` with `size` random bytes; any byte source is equivalent
downstream).  It writes `binary.Write(conn, binary.LittleEndian, int64(size))`
(8 bytes) and then `io.CopyN(conn, bytes.NewReader(file), int64(size))`; a
`CopyN` error is returned to the caller.  On success the result is the byte
sequence put on the wire together with the count `n` that
`fmt.Printf("Sent %d bytes\n", n)` reports. -/
def send (size : Nat) (file : List Nat) : Except String (List Nat × Nat) :=
  let header := int64ToLE (size : Int)
  match copyNFromReader file (size : Int) with
  | (chunk, none) => Except.ok (header ++ chunk, chunk.length)
  | (_, some _) => Except.error "io.CopyN: short read"

/-- One event seen by the accept loop: a successful `listener.Accept()`
yielding a connection (identified by a tag), or an accept error. -/
inductive AcceptEvent where
  | ok : Nat → AcceptEvent
  | err : String → AcceptEvent
deriving DecidableEq, Repr

/-- The body of the `for {}` accept loop (lines 36–48), run over a finite
trace of accept results: an `ok` connection is dispatched to a handler
goroutine (`go fs.read(conn)`) and the loop continues; an error is printed
(`fmt.Println("Error accepting: ", ...)`) and the loop `continue`s.  Returns
the handlers spawned and the errors logged, each in order. -/
def acceptLoop : List AcceptEvent → List Nat × List String
  | [] => ([], [])
  | AcceptEvent.ok c :: rest =>
      let (hs, ls) := acceptLoop rest
      (c :: hs, ls)
  | AcceptEvent.err e :: rest =>
      let (hs, ls) := acceptLoop rest
      (hs, e :: ls)

/-- `FileServer.start` (lines 26–49): if `net.Listen` fails the error is
returned to the caller at once (no accepting happens); otherwise the accept
loop runs over the trace of accept results. -/
def FileServer.start (listenResult : Except String Unit)
    (events : List AcceptEvent) : Except String (List Nat × List String) :=
  match listenResult with
  | Except.error e => Except.error e
  | Except.ok _ => Except.ok (acceptLoop events)

/-! ## Helper lemmas about the wire encoding -/

theorem leBytes_length (u k : Nat) : (leBytes u k).length = k := by
  induction k generalizing u with
  | zero => rfl
  | succ k ih => simp [leBytes, ih]

theorem leVal_leBytes (u k : Nat) : leVal (leBytes u k) = u % 256 ^ k := by
  induction k generalizing u with
  | zero => simp [leBytes, leVal, Nat.mod_one]
  | succ k ih =>
      have h : (256 : Nat) ^ (k + 1) = 256 * 256 ^ k := by ring
      simp only [leBytes, leVal, List.foldr_cons]
      have : (leBytes (u / 256) k).foldr (fun b acc => b + 256 * acc) 0
          = leVal (leBytes (u / 256) k) := rfl
      rw [this, ih, h, Nat.mod_mul]

theorem int64ToLE_length (v : Int) : (int64ToLE v).length = 8 :=
  leBytes_length _ _

theorem int64ToLE_natCast (n : Nat) (h : n < 2 ^ 64) :
    int64ToLE (n : Int) = leBytes n 8 := by
  unfold int64ToLE
  have h0 : ((n : Int)) % (2 : Int) ^ 64 = (n : Int) := by
    apply Int.emod_eq_of_lt (by positivity)
    exact_mod_cast h
  rw [h0, Int.toNat_natCast]

theorem int64OfLE_int64ToLE (n : Nat) (h : n < 2 ^ 63) :
    int64OfLE (int64ToLE (n : Int)) = (n : Int) := by
  have h64 : n < 2 ^ 64 := lt_trans h (by norm_num)
  rw [int64ToLE_natCast n h64]
  unfold int64OfLE
  have hv : leVal (leBytes n 8) = n := by
    rw [leVal_leBytes]
    exact Nat.mod_eq_of_lt (by exact_mod_cast h64)
  simp only [hv]
  rw [if_pos h]

/-- decoding a frame header: the prefix is consumed and yields the size. -/
theorem readSize_frame (n : Nat) (h : n < 2 ^ 63) (rest : List Nat)
    (t : ConnTerm) :
    readSize ⟨int64ToLE (n : Int) ++ rest, t⟩ = ((n : Int), ⟨rest, t⟩) := by
  unfold readSize
  have hl : (int64ToLE (n : Int)).length = 8 := int64ToLE_length _
  have hge : 8 ≤ (int64ToLE (n : Int) ++ rest).length := by
    simp [hl]
  rw [if_pos hge]
  have htake : (int64ToLE (n : Int) ++ rest).take 8 = int64ToLE (n : Int) := by
    rw [← hl]; exact List.take_left _ _
  have hdrop : (int64ToLE (n : Int) ++ rest).drop 8 = rest := by
    rw [← hl]; exact List.drop_left _ _
  rw [htake, hdrop, int64OfLE_int64ToLE n h]

/-! ## Helper lemmas about `copyN` and the read loop -/

theorem copyN_nonpos (conn : Conn) (n : Int) (h : n ≤ 0) :
    copyN conn n = ([], none, conn) := by
  unfold copyN
  rw [if_pos h]

/-- with exactly `n` bytes queued, `copyN` takes them all and succeeds. -/
theorem copyN_exact (payload : List Nat) (t : ConnTerm) (n : Int)
    (hn : 0 < n) (hlen : (payload.length : Int) = n) :
    copyN ⟨payload, t⟩ n = (payload, none, ⟨[], t⟩) := by
  unfold copyN
  rw [if_neg (by omega), if_pos (by simp; omega)]
  have hnat : n.toNat = payload.length := by omega
  simp [hnat]

/-- with fewer than `n` bytes queued and the peer closed, `copyN` returns the
short chunk with `io.EOF`. -/
theorem copyN_short_closed (payload : List Nat) (n : Int) (hn : 0 < n)
    (hlen : (payload.length : Int) < n) :
    copyN ⟨payload, ConnTerm.closed⟩ n
      = (payload, some CopyErr.eof, ⟨[], ConnTerm.closed⟩) := by
  unfold copyN
  rw [if_neg (by omega), if_neg (by simp; omega)]

/-- with fewer than `n` bytes queued and a stream error pending, `copyN`
returns the short chunk with that non-EOF error. -/
theorem copyN_short_err (payload : List Nat) (n : Int) (e : String)
    (hn : 0 < n) (hlen : (payload.length : Int) < n) :
    copyN ⟨payload, ConnTerm.errAfter e⟩ n
      = (payload, some (CopyErr.ioErr e), ⟨[], ConnTerm.errAfter e⟩) := by
  unfold copyN
  rw [if_neg (by omega), if_neg (by simp; omega)]

/-- a bounded read consumes a prefix of the connection: the copied chunk
followed by the remaining data is the original data, and the terminal
condition is untouched. -/
theorem copyN_consume (conn : Conn) (n : Int) :
    (copyN conn n).1 ++ (copyN conn n).2.2.data = conn.data ∧
      (copyN conn n).2.2.term = conn.term := by
  unfold copyN
  by_cases h0 : n ≤ 0
  · simp [h0]
  · rw [if_neg h0]
    by_cases h1 : (conn.data.length : Int) ≥ n
    · simp [h1]
    · rw [if_neg h1]
      cases h : conn.term <;> simp [h]

/-- with `size ≤ 0` (in particular `size = 0`), every iteration of the loop
copies nothing, reports `0` and continues: the loop never terminates, the
buffer and the connection never change. -/
theorem readLoop_nonpos (size : Int) (h : size ≤ 0) (fuel : Nat)
    (buf rep : List Nat) (conn : Conn) :
    readLoop size fuel buf rep conn
      = (ReadOutcome.outOfFuel, buf, rep ++ List.replicate fuel 0, conn) := by
  induction fuel generalizing rep with
  | zero => simp [readLoop]
  | succ fuel ih =>
      rw [readLoop, copyN_nonpos conn size h]
      simp only [List.append_nil, List.length_nil]
      rw [ih (rep ++ [0])]
      simp [List.replicate_succ]

/-- a frame whose payload is delivered in full and followed by stream close is
consumed in two iterations: one copying the whole payload, one hitting EOF. -/
theorem readLoop_exact_frame (payload : List Nat) (fuel : Nat)
    (buf rep : List Nat) (h : 0 < payload.length) :
    readLoop (payload.length : Int) (fuel + 2) buf rep ⟨payload, ConnTerm.closed⟩
      = (ReadOutcome.cleanExit, buf ++ payload, rep ++ [payload.length],
          ⟨[], ConnTerm.closed⟩) := by
  have hn : (0 : Int) < (payload.length : Int) := by exact_mod_cast h
  have h1 := copyN_exact payload ConnTerm.closed (payload.length : Int) hn rfl
  have h2 := copyN_short_closed [] (payload.length : Int) hn (by simp; omega)
  show readLoop (payload.length : Int) (fuel + 1 + 1) buf rep ⟨payload, ConnTerm.closed⟩ = _
  rw [readLoop, h1]
  show readLoop (payload.length : Int) (fuel + 1) _ _ _ = _
  rw [readLoop, h2]
  simp

/-- a truncated frame (stream closes with fewer bytes than requested) is
consumed in a single iteration ending in the EOF branch. -/
theorem readLoop_short_frame (payload : List Nat) (size : Int) (fuel : Nat)
    (buf rep : List Nat) (hn : 0 < size)
    (hlen : (payload.length : Int) < size) :
    readLoop size (fuel + 1) buf rep ⟨payload, ConnTerm.closed⟩
      = (ReadOutcome.cleanExit, buf ++ payload, rep, ⟨[], ConnTerm.closed⟩) := by
  rw [readLoop, copyN_short_closed payload size hn hlen]

/-- the buffer is append-only and tracks the stream: however much fuel the
loop is given, its buffer is the starting buffer followed by exactly the
bytes consumed from the connection, in arrival order, and the remaining
connection is the corresponding suffix. -/
theorem readLoop_prefix (size : Int) (fuel : Nat) (buf rep : List Nat)
    (conn : Conn) :
    ∃ k, (readLoop size fuel buf rep conn).2.1 = buf ++ conn.data.take k ∧
      (readLoop size fuel buf rep conn).2.2.2.data = conn.data.drop k ∧
      (readLoop size fuel buf rep conn).2.2.2.term = conn.term := by
  induction fuel generalizing buf rep conn with
  | zero => exact ⟨0, by simp [readLoop]⟩
  | succ fuel ih =>
      obtain ⟨hdata, hterm⟩ := copyN_consume conn size
      rcases h : copyN conn size with ⟨chunk, err, conn'⟩
      rw [h] at hdata hterm
      match err with
      | some CopyErr.eof =>
          refine ⟨chunk.length, ?_⟩
          rw [readLoop, h]
          refine ⟨?_, ?_, ?_⟩
          · rw [← hdata, List.take_left]
          · rw [← hdata, List.drop_left]
          · exact hterm.symm ▸ rfl
      | some (CopyErr.ioErr e) =>
          refine ⟨chunk.length, ?_⟩
          rw [readLoop, h]
          refine ⟨?_, ?_, ?_⟩
          · rw [← hdata, List.take_left]
          · rw [← hdata, List.drop_left]
          · exact hterm.symm ▸ rfl
      | none =>
          obtain ⟨k, hbuf, hdat, ht⟩ := ih (buf ++ chunk) (rep ++ [chunk.length]) conn'
          refine ⟨chunk.length + k, ?_, ?_, ?_⟩
          · rw [readLoop, h, hbuf, ← hdata, List.take_append, List.append_assoc]
          · rw [readLoop, h, hdat, ← hdata, List.drop_append]
          · rw [readLoop, h, ht, hterm]

/-- accounting for the reported byte counts: the buffer grows by exactly the
sum of the reported counts plus one final unreported chunk, the chunk copied
by the bounded read that ended the loop; when the loop merely runs out of
fuel every chunk so far has been reported and the two agree exactly. -/
theorem readLoop_sum (size : Int) (fuel : Nat) (buf rep : List Nat)
    (conn : Conn) :
    (∃ c, (readLoop size fuel buf rep conn).2.1.length + rep.sum
        = (readLoop size fuel buf rep conn).2.2.1.sum + buf.length + c) ∧
      ((readLoop size fuel buf rep conn).1 = ReadOutcome.outOfFuel →
        (readLoop size fuel buf rep conn).2.1.length + rep.sum
          = (readLoop size fuel buf rep conn).2.2.1.sum + buf.length) := by
  induction fuel generalizing buf rep conn with
  | zero =>
      exact ⟨⟨0, by simp [readLoop]; omega⟩, by simp [readLoop]; omega⟩
  | succ fuel ih =>
      rcases h : copyN conn size with ⟨chunk, err, conn'⟩
      match err with
      | some CopyErr.eof =>
          refine ⟨⟨chunk.length, ?_⟩, ?_⟩
          · rw [readLoop, h]; simp; omega
          · rw [readLoop, h]; intro hcon; cases hcon
      | some (CopyErr.ioErr e) =>
          refine ⟨⟨chunk.length, ?_⟩, ?_⟩
          · rw [readLoop, h]; simp; omega
          · rw [readLoop, h]; intro hcon; cases hcon
      | none =>
          obtain ⟨⟨c, hc⟩, hfuel⟩ := ih (buf ++ chunk) (rep ++ [chunk.length]) conn'
          constructor
          · refine ⟨c, ?_⟩
            rw [readLoop, h]
            simp only [List.sum_append, List.length_append, List.sum_cons,
              List.sum_nil] at hc ⊢
            omega
          · intro hout
            rw [readLoop, h] at hout ⊢
            have := hfuel hout
            simp only [List.sum_append, List.length_append, List.sum_cons,
              List.sum_nil] at this ⊢
            omega

/-- the accept loop is compositional over the event trace: handlers and
logged errors are collected across any split of the trace. -/
theorem acceptLoop_append (xs ys : List AcceptEvent) :
    acceptLoop (xs ++ ys)
      = ((acceptLoop xs).1 ++ (acceptLoop ys).1,
          (acceptLoop xs).2 ++ (acceptLoop ys).2) := by
  induction xs with
  | nil => simp [acceptLoop]
  | cons x xs ih =>
      cases x with
      | ok c => simp [acceptLoop, ih]
      | err e => simp [acceptLoop, ih]

/-- `FileServer.read` unfolded: decode the size once, then run the loop on
an empty buffer with no counts reported yet. -/
theorem FileServer.read_def (conn : Conn) (fuel : Nat) :
    FileServer.read conn fuel
      = readLoop (readSize conn).1 fuel [] [] (readSize conn).2 := rfl

/-! ## Claim theorems -/

/-- C1 (counterexample): the round-trip property fails at payload length
`n = 0`.  The sender encodes the empty payload as the 8-byte zero prefix,
but the receiver's read loop never terminates on that frame — `io.CopyN`
with `size = 0` returns `(0, nil)` without ever observing the closed stream,
so no fuel bound suffices for the loop to finish and report the decoded
frame. -/
theorem roundTrip_zero_counterexample :
    send 0 [] = Except.ok (int64ToLE (0 : Int), 0) ∧
      ∀ fuel, (FileServer.read ⟨int64ToLE (0 : Int), ConnTerm.closed⟩ fuel).1
        = ReadOutcome.outOfFuel := by
  refine ⟨rfl, fun fuel => ?_⟩
  rw [FileServer.read_def]
  have h : readSize ⟨int64ToLE (0 : Int), ConnTerm.closed⟩
      = (0, ⟨[], ConnTerm.closed⟩) := by decide
  rw [h, readLoop_nonpos 0 le_rfl]

/-- C1 (amended: payload length `n ≥ 1`): encoding a nonempty payload as a
frame with `send` (8-byte little-endian prefix then the payload) and decoding
it with the receiver's read procedure over a stream that then closes
reproduces the length `n` (as the decoded size, and as the buffer length) and
the payload byte-for-byte, with the loop exiting cleanly whatever extra fuel
it is granted. -/
theorem roundTrip_pos (n : Nat) (payload : List Nat)
    (hlen : payload.length = n) (h1 : 1 ≤ n) (h2 : n < 2 ^ 63) :
    send n payload = Except.ok (int64ToLE (n : Int) ++ payload, n) ∧
      (readSize ⟨int64ToLE (n : Int) ++ payload, ConnTerm.closed⟩).1 = (n : Int) ∧
      ∀ fuel, FileServer.read ⟨int64ToLE (n : Int) ++ payload, ConnTerm.closed⟩
          (fuel + 2)
        = (ReadOutcome.cleanExit, payload, [n], ⟨[], ConnTerm.closed⟩) := by
  refine ⟨?_, ?_, fun fuel => ?_⟩
  · unfold send copyNFromReader
    rw [if_neg (by omega), if_pos (by simp [hlen]), Int.toNat_natCast]
    rw [← hlen, List.take_length]
  · rw [readSize_frame n h2 payload]
  · rw [FileServer.read_def, readSize_frame n h2 payload]
    have h0 : 0 < payload.length := by omega
    have := readLoop_exact_frame payload fuel [] [] h0
    rw [hlen] at this
    rw [this]
    simp [hlen]

/-- C1 (witness for the amended round trip at `n = 2`, payload `[10, 20]`). -/
theorem roundTrip_pos_witness :
    send 2 [10, 20] = Except.ok (int64ToLE (2 : Int) ++ [10, 20], 2) ∧
      FileServer.read ⟨int64ToLE (2 : Int) ++ [10, 20], ConnTerm.closed⟩ 2
        = (ReadOutcome.cleanExit, [10, 20], [2], ⟨[], ConnTerm.closed⟩) :=
  ⟨(roundTrip_pos 2 [10, 20] rfl (by norm_num) (by norm_num)).1,
    (roundTrip_pos 2 [10, 20] rfl (by norm_num) (by norm_num)).2.2 0⟩

/-- C2 (code bug, evaluated at the failing input): when the connection closes
after only 3 bytes `[1, 2, 3]` of the 8-byte prefix, the receiver raises no
decode error at all — `binary.Read`'s error is discarded, `size` silently
stays `0`, and the read loop then spins forever reporting `0` bytes per
iteration, instead of failing with an explicit decode error. -/
theorem truncatedPrefix_silently_zero :
    (readSize ⟨[1, 2, 3], ConnTerm.closed⟩).1 = 0 ∧
      ∀ fuel, FileServer.read ⟨[1, 2, 3], ConnTerm.closed⟩ fuel
        = (ReadOutcome.outOfFuel, [], List.replicate fuel 0,
            ⟨[], ConnTerm.closed⟩) := by
  refine ⟨by decide, fun fuel => ?_⟩
  rw [FileServer.read_def]
  have h : readSize ⟨[1, 2, 3], ConnTerm.closed⟩ = (0, ⟨[], ConnTerm.closed⟩) := by
    decide
  rw [h, readLoop_nonpos 0 le_rfl]
  simp

/-- C3 (code bug, evaluated at the failing input): on a frame with declared
length 0 (8-byte zero prefix, stream then closed) the receiver decodes size 0
and accumulates zero payload bytes, but its read loop does **not** terminate:
`io.CopyN` with `size = 0` returns `(0, nil)` without touching the
connection, so the EOF branch is never reached and the loop spins forever,
for every fuel bound. -/
theorem zeroLength_loop_never_terminates :
    (readSize ⟨int64ToLE (0 : Int), ConnTerm.closed⟩).1 = 0 ∧
      ∀ fuel, FileServer.read ⟨int64ToLE (0 : Int), ConnTerm.closed⟩ fuel
        = (ReadOutcome.outOfFuel, [], List.replicate fuel 0,
            ⟨[], ConnTerm.closed⟩) := by
  refine ⟨by decide, fun fuel => ?_⟩
  rw [FileServer.read_def]
  have h : readSize ⟨int64ToLE (0 : Int), ConnTerm.closed⟩
      = (0, ⟨[], ConnTerm.closed⟩) := by decide
  rw [h, readLoop_nonpos 0 le_rfl]
  simp

/-- C4 (counterexample): the size prefix is *not* decoded as unsigned.  For
the 8-byte prefix `[0,0,0,0,0,0,0,128]`, whose unsigned little-endian value
is `2^63`, the receiver's decoded size is `-2^63`, because `binary.Read`
targets a signed `int64`. -/
theorem signedPrefix_counterexample :
    leVal [0, 0, 0, 0, 0, 0, 0, 128] = 2 ^ 63 ∧
      (readSize ⟨[0, 0, 0, 0, 0, 0, 0, 128], ConnTerm.closed⟩).1
        = -((2 : Int) ^ 63) ∧
      (readSize ⟨[0, 0, 0, 0, 0, 0, 0, 128], ConnTerm.closed⟩).1
        ≠ ((2 : Int) ^ 63) := by
  refine ⟨by decide, by decide, by decide⟩

/-- C4 (amended): the receiver reads the first 8 bytes of the connection and
interprets them as a **signed** little-endian 64-bit integer: for prefixes
whose unsigned value is below `2^63` the decoded size equals that unsigned
value, while prefixes with the most significant bit set decode to the
unsigned value minus `2^64` (a negative size). -/
theorem signedPrefix_decode (bs rest : List Nat) (h : bs.length = 8) :
    readSize ⟨bs ++ rest, ConnTerm.closed⟩
      = (if leVal bs < 2 ^ 63 then ((leVal bs : Nat) : Int)
          else ((leVal bs : Nat) : Int) - 2 ^ 64,
         ⟨rest, ConnTerm.closed⟩) := by
  unfold readSize
  rw [if_pos (by simp [h])]
  rw [show (8 : Nat) = bs.length from h.symm, List.take_left, List.drop_left]
  rfl

/-- C4 (witness for the amended decode at prefix `[1,0,0,0,0,0,0,0]`). -/
theorem signedPrefix_decode_witness :
    readSize ⟨[1, 0, 0, 0, 0, 0, 0, 0] ++ [9], ConnTerm.closed⟩
      = (if leVal [1, 0, 0, 0, 0, 0, 0, 0] < 2 ^ 63
          then ((leVal [1, 0, 0, 0, 0, 0, 0, 0] : Nat) : Int)
          else ((leVal [1, 0, 0, 0, 0, 0, 0, 0] : Nat) : Int) - 2 ^ 64,
         ⟨[9], ConnTerm.closed⟩) :=
  signedPrefix_decode [1, 0, 0, 0, 0, 0, 0, 0] [9] rfl

/-- C5: if a frame declares length `L` but the stream closes after delivering
only `m < L` payload bytes, the read loop exits via the end-of-stream (EOF)
path in its first iteration, the buffer holds exactly those `m` bytes, and
the received count `m` is observably distinct from `L`. -/
theorem truncatedPayload_short_count (L : Nat) (payload : List Nat)
    (hm : payload.length < L) (hL : L < 2 ^ 63) :
    (∀ fuel,
      FileServer.read ⟨int64ToLE (L : Int) ++ payload, ConnTerm.closed⟩ (fuel + 1)
        = (ReadOutcome.cleanExit, payload, [], ⟨[], ConnTerm.closed⟩)) ∧
      payload.length ≠ L := by
  refine ⟨fun fuel => ?_, by omega⟩
  rw [FileServer.read_def, readSize_frame L hL payload]
  rw [readLoop_short_frame payload (L : Int) fuel [] [] (by omega)
    (by exact_mod_cast hm)]
  simp

/-- C5 (witness at `L = 3`, delivered payload `[9]`, so `m = 1`). -/
theorem truncatedPayload_short_count_witness :
    FileServer.read ⟨int64ToLE (3 : Int) ++ [9], ConnTerm.closed⟩ 1
        = (ReadOutcome.cleanExit, [9], [], ⟨[], ConnTerm.closed⟩) ∧
      ([9] : List Nat).length ≠ 3 :=
  ⟨(truncatedPayload_short_count 3 [9] (by norm_num) (by norm_num)).1 0,
    (truncatedPayload_short_count 3 [9] (by norm_num) (by norm_num)).2⟩

/-- C6: the sender emits the 8-byte little-endian encoding of `size` first;
when the payload source holds exactly `size` bytes it then emits precisely
those bytes and reports a written count equal to `size`, and when the source
holds fewer than `size` bytes the bounded copy falls short and `send` reports
an error to its caller. -/
theorem send_frame_format (size : Nat) (file : List Nat) :
    (int64ToLE (size : Int)).length = 8 ∧
      (file.length = size →
        send size file = Except.ok (int64ToLE (size : Int) ++ file, size)) ∧
      (file.length < size →
        send size file = Except.error "io.CopyN: short read") := by
  refine ⟨int64ToLE_length _, fun hlen => ?_, fun hshort => ?_⟩
  · unfold send copyNFromReader
    by_cases h0 : (size : Int) ≤ 0
    · have hz : size = 0 := by omega
      subst hz
      have hf : file = [] := List.eq_nil_of_length_eq_zero hlen
      subst hf
      simp
    · rw [if_neg h0, if_pos (by simp [hlen]), Int.toNat_natCast]
      rw [← hlen, List.take_length]
  · unfold send copyNFromReader
    rw [if_neg (by omega), if_neg (by simp; omega)]

/-- C6 (witness: success at `size = 2` with payload `[1, 2]`, error at
`size = 3` with only one byte available). -/
theorem send_frame_format_witness :
    send 2 [1, 2] = Except.ok (int64ToLE (2 : Int) ++ [1, 2], 2) ∧
      send 3 [1] = Except.error "io.CopyN: short read" :=
  ⟨(send_frame_format 2 [1, 2]).2.1 rfl,
    (send_frame_format 3 [1]).2.2 (by norm_num)⟩

/-- C7: a `net.Listen` failure makes `start` return that error to its caller
without any accepting, while an accept error anywhere in the event trace is
logged and the loop keeps going: every connection accepted after the error is
still dispatched to a handler, and the error itself appears in the log. -/
theorem start_accept_errors_nonfatal (e e2 : String)
    (events pre post : List AcceptEvent) :
    FileServer.start (Except.error e) events = Except.error e ∧
      FileServer.start (Except.ok ()) (pre ++ AcceptEvent.err e2 :: post)
        = Except.ok ((acceptLoop pre).1 ++ (acceptLoop post).1,
            (acceptLoop pre).2 ++ e2 :: (acceptLoop post).2) := by
  refine ⟨rfl, ?_⟩
  show Except.ok (acceptLoop (pre ++ AcceptEvent.err e2 :: post)) = _
  rw [acceptLoop_append pre (AcceptEvent.err e2 :: post)]
  rfl

/-- C8: in the payload read loop, a stream that ends (EOF) makes the loop
break cleanly — EOF is not treated as an error — whereas a non-EOF read error
`e` reaches `log.Fatal`, aborting the entire process rather than just the
connection handler. -/
theorem payload_error_dispatch (size : Int) (fuel : Nat)
    (buf rep d : List Nat) (e : String) (h0 : 0 < size)
    (hd : (d.length : Int) < size) :
    (readLoop size (fuel + 1) buf rep ⟨d, ConnTerm.closed⟩).1
        = ReadOutcome.cleanExit ∧
      (readLoop size (fuel + 1) buf rep ⟨d, ConnTerm.errAfter e⟩).1
        = ReadOutcome.fatal e := by
  constructor
  · rw [readLoop, copyN_short_closed d size h0 hd]
  · rw [readLoop, copyN_short_err d size e h0 hd]

/-- C8 (witness: an empty stream at requested size 1, closed vs. erroring). -/
theorem payload_error_dispatch_witness :
    (readLoop 1 1 [] [] ⟨[], ConnTerm.closed⟩).1 = ReadOutcome.cleanExit ∧
      (readLoop 1 1 [] [] ⟨[], ConnTerm.errAfter "reset"⟩).1
        = ReadOutcome.fatal "reset" :=
  payload_error_dispatch 1 0 [] [] [] "reset" (by norm_num) (by simp)

/-- C9 (counterexample): the sum of the reported counts does *not* always
equal the bytes accumulated in the buffer.  For a frame declaring length 2
whose stream closes after one payload byte, the only bounded read returns
that byte together with `io.EOF`, so the loop breaks before printing: the
buffer holds 1 byte but no count was ever reported. -/
theorem reported_sum_counterexample :
    (FileServer.read ⟨int64ToLE (2 : Int) ++ [5], ConnTerm.closed⟩ 1).2.1.length
        = 1 ∧
      (FileServer.read ⟨int64ToLE (2 : Int) ++ [5], ConnTerm.closed⟩ 1).2.2.1
        = [] := by
  decide

/-- C9 (amended): each error-free iteration reports the byte count it copied,
and the buffer always holds the sum of the reported counts plus the bytes of
one final unreported chunk — the chunk copied by the bounded read whose error
(EOF or fatal) ended the loop.  While the loop is still running (no error
yet) the reported sum equals the buffer length exactly. -/
theorem reported_sum_accounting (conn : Conn) (fuel : Nat) :
    (∃ c, (FileServer.read conn fuel).2.1.length
        = (FileServer.read conn fuel).2.2.1.sum + c) ∧
      ((FileServer.read conn fuel).1 = ReadOutcome.outOfFuel →
        (FileServer.read conn fuel).2.1.length
          = (FileServer.read conn fuel).2.2.1.sum) := by
  rw [FileServer.read_def]
  have h := readLoop_sum (readSize conn).1 fuel [] [] (readSize conn).2
  obtain ⟨⟨c, hc⟩, hfull⟩ := h
  refine ⟨⟨c, ?_⟩, fun hout => ?_⟩
  · simpa using hc
  · simpa using hfull hout

/-- C9 (witness: the truncated frame exhibits a positive unreported chunk,
and a still-running loop has buffer length equal to the reported sum). -/
theorem reported_sum_accounting_witness :
    (∃ c, (FileServer.read ⟨int64ToLE (2 : Int) ++ [5], ConnTerm.closed⟩ 1).2.1.length
        = (FileServer.read ⟨int64ToLE (2 : Int) ++ [5], ConnTerm.closed⟩ 1).2.2.1.sum
            + c) ∧
      (FileServer.read ⟨[1, 2, 3], ConnTerm.closed⟩ 2).2.1.length
        = (FileServer.read ⟨[1, 2, 3], ConnTerm.closed⟩ 2).2.2.1.sum :=
  ⟨(reported_sum_accounting ⟨int64ToLE (2 : Int) ++ [5], ConnTerm.closed⟩ 1).1,
    (reported_sum_accounting ⟨[1, 2, 3], ConnTerm.closed⟩ 2).2 (by decide)⟩

/-- C10: the accumulation buffer is append-only and loss-free: it starts
empty, and whatever fuel the loop is given (i.e. after any number of
iterations), its contents are exactly the payload bytes consumed from the
connection so far, in arrival order — a prefix of the post-header stream
whose remainder is still queued on the connection. -/
theorem buffer_append_only (conn : Conn) (fuel : Nat) :
    ∃ k, (FileServer.read conn fuel).2.1 = (readSize conn).2.data.take k ∧
      (FileServer.read conn fuel).2.2.2.data = (readSize conn).2.data.drop k ∧
      (FileServer.read conn fuel).2.1 ++ (FileServer.read conn fuel).2.2.2.data
        = (readSize conn).2.data := by
  rw [FileServer.read_def]
  obtain ⟨k, h1, h2, h3⟩ :=
    readLoop_prefix (readSize conn).1 fuel [] [] (readSize conn).2
  refine ⟨k, by simpa using h1, h2, ?_⟩
  rw [h2]
  have h1s : (readLoop (readSize conn).1 fuel [] [] (readSize conn).2).2.1
      = (readSize conn).2.data.take k := by simpa using h1
  rw [h1s, List.take_append_drop]
